import Mathlib

/-!
Verification development for the Customer-Intelligence-Platform ETL pipeline.

The pipeline is a fixed sequence of SQL `CREATE TABLE AS SELECT` statements
executed against DuckDB (`src/processing/*.py`, `src/analysis/*.py`,
`src/models/recommendations.py`).  We shallowly embed the event table as a
Lean list and each SQL query as an executable Lean function over it.  Prices
and derived rates are rationals; timestamps are natural numbers counting the
time unit relevant to the query (days for `date_diff('day', ...)`, with weeks
being blocks of 7 consecutive units).  SQL `NULL` is `Option.none`; DuckDB's
non-erroring division-by-zero sentinel is modelled as `Option.none`.
-/

namespace CIP

/-- The `event_type` column of the raw `events` table. -/
inductive EventType where
  | view
  | cart
  | removeFromCart
  | purchase
deriving DecidableEq, Repr

/-- One row of the raw `events` table (the Event Store). `user_session` and the
descriptive string columns are nullable, as in the source data. -/
structure Event where
  event_time : Nat
  event_type : EventType
  product_id : Nat
  category_id : Nat
  category_code : Option String
  brand : Option String
  price : ℚ
  user_id : Nat
  user_session : Option Nat
deriving DecidableEq, Repr

/-- SQL `MAX` over a list of naturals (0 on the empty list). -/
def listMax (l : List Nat) : Nat := l.foldl max 0

/-- SQL `MIN` over a nonempty list of naturals, taking the head as seed
(0 on the empty list, which never receives a SQL group). -/
def listMin : List Nat → Nat
  | [] => 0
  | x :: xs => xs.foldl min x

theorem foldl_max_init_le (l : List Nat) (a : Nat) : a ≤ l.foldl max a := by
  induction l generalizing a with
  | nil => exact le_rfl
  | cons y ys ih => exact le_trans (le_max_left a y) (ih (max a y))

theorem foldl_max_le_mem (l : List Nat) (a x : Nat) (hx : x ∈ l) :
    x ≤ l.foldl max a := by
  induction l generalizing a with
  | nil => cases hx
  | cons y ys ih =>
    rcases List.mem_cons.mp hx with rfl | h
    · exact le_trans (le_max_right a x) (foldl_max_init_le ys (max a x))
    · exact ih (max a y) h

theorem le_listMax (l : List Nat) (x : Nat) (hx : x ∈ l) : x ≤ listMax l :=
  foldl_max_le_mem l 0 x hx

theorem foldl_max_mem (l : List Nat) (a : Nat) :
    l.foldl max a = a ∨ l.foldl max a ∈ l := by
  induction l generalizing a with
  | nil => exact Or.inl rfl
  | cons y ys ih =>
    rcases ih (max a y) with h | h
    · rcases Nat.le_total a y with h2 | h2
      · refine Or.inr (List.mem_cons.mpr (Or.inl ?_))
        rw [List.foldl_cons, h]; omega
      · refine Or.inl ?_
        rw [List.foldl_cons, h]; omega
    · exact Or.inr (List.mem_cons_of_mem _ h)

theorem foldl_min_le_init (l : List Nat) (a : Nat) : l.foldl min a ≤ a := by
  induction l generalizing a with
  | nil => exact le_rfl
  | cons y ys ih => exact le_trans (ih (min a y)) (min_le_left a y)

theorem foldl_min_le_mem (l : List Nat) (a x : Nat) (hx : x ∈ l) :
    l.foldl min a ≤ x := by
  induction l generalizing a with
  | nil => cases hx
  | cons y ys ih =>
    rcases List.mem_cons.mp hx with rfl | h
    · exact le_trans (foldl_min_le_init ys (min a x)) (min_le_right a x)
    · exact ih (min a y) h

theorem listMin_le (l : List Nat) (x : Nat) (hx : x ∈ l) : listMin l ≤ x := by
  match l with
  | [] => cases hx
  | y :: ys =>
    rcases List.mem_cons.mp hx with rfl | h
    · exact foldl_min_le_init ys x
    · exact foldl_min_le_mem ys y x h

theorem foldl_min_mem (l : List Nat) (a : Nat) :
    l.foldl min a = a ∨ l.foldl min a ∈ l := by
  induction l generalizing a with
  | nil => exact Or.inl rfl
  | cons y ys ih =>
    rcases ih (min a y) with h | h
    · rcases Nat.le_total a y with h2 | h2
      · refine Or.inl ?_
        rw [List.foldl_cons, h]; omega
      · refine Or.inr (List.mem_cons.mpr (Or.inl ?_))
        rw [List.foldl_cons, h]; omega
    · exact Or.inr (List.mem_cons_of_mem _ h)

theorem listMin_mem (l : List Nat) (hl : l ≠ []) : listMin l ∈ l := by
  match l with
  | [] => exact absurd rfl hl
  | y :: ys =>
    rcases foldl_min_mem ys y with h | h
    · rw [listMin, h]; exact List.mem_cons_self _ _
    · exact List.mem_cons_of_mem _ h

/-- Is this row a purchase event? (the recurring `event_type = 'purchase'` filter). -/
def isPurchase (e : Event) : Bool := e.event_type == EventType.purchase

/-! ## Sessionizer (`src/processing/sessionization.py`, `create_sessions`)

`fact_sessions` groups the events whose `user_session` is non-NULL by session
identifier.  The `mode(category_code)` column is not modelled: no claim
mentions it and its tie behaviour is engine-internal. -/

/-- One row of `fact_sessions`. -/
structure SessionRow where
  user_session : Nat
  user_id : Nat
  session_start : Nat
  session_end : Nat
  duration_sec : Nat
  event_count : Nat
  has_view : Bool
  has_cart : Bool
  has_remove : Bool
  has_purchase : Bool
  session_revenue : ℚ
deriving DecidableEq, Repr

/-- The distinct non-NULL session identifiers occurring in the event table. -/
def sessionIds (events : List Event) : List Nat :=
  (events.filterMap (fun e => e.user_session)).dedup

/-- The group of events carrying the given (non-NULL) session identifier. -/
def sessionEvents (events : List Event) (sid : Nat) : List Event :=
  events.filter (fun e => e.user_session == some sid)

/-- `CREATE TABLE fact_sessions AS SELECT ... FROM events WHERE user_session IS
NOT NULL GROUP BY user_session`. -/
def factSessions (events : List Event) : List SessionRow :=
  (sessionIds events).map (fun sid =>
    { user_session := sid
      user_id := listMax ((sessionEvents events sid).map (fun e => e.user_id))
      session_start := listMin ((sessionEvents events sid).map (fun e => e.event_time))
      session_end := listMax ((sessionEvents events sid).map (fun e => e.event_time))
      duration_sec :=
        listMax ((sessionEvents events sid).map (fun e => e.event_time)) -
          listMin ((sessionEvents events sid).map (fun e => e.event_time))
      event_count := (sessionEvents events sid).length
      has_view := (sessionEvents events sid).any (fun e => e.event_type == EventType.view)
      has_cart := (sessionEvents events sid).any (fun e => e.event_type == EventType.cart)
      has_remove :=
        (sessionEvents events sid).any (fun e => e.event_type == EventType.removeFromCart)
      has_purchase := (sessionEvents events sid).any isPurchase
      session_revenue := (((sessionEvents events sid).filter isPurchase).map
        (fun e => e.price)).sum })

/-- DuckDB division with the non-erroring division-by-zero sentinel (NULL). -/
def sqlDivOpt (a b : ℚ) : Option ℚ := if b = 0 then none else some (a / b)

/-- `ROUND(x, 4)` for the nonnegative rates produced by the funnel query. -/
def round4 (x : ℚ) : ℚ := (⌊x * 10000 + 1 / 2⌋ : ℚ) / 10000

/-- `SUM(CAST(has_view AS INT))` over `fact_sessions`. -/
def sessionsWithView (rows : List SessionRow) : Nat := rows.countP (fun r => r.has_view)

/-- `SUM(CAST(has_cart AS INT))` over `fact_sessions`. -/
def sessionsWithCart (rows : List SessionRow) : Nat := rows.countP (fun r => r.has_cart)

/-- `SUM(CAST(has_purchase AS INT))` over `fact_sessions`. -/
def sessionsWithPurchase (rows : List SessionRow) : Nat :=
  rows.countP (fun r => r.has_purchase)

/-- `ROUND(SUM(CAST(has_cart AS INT)) / SUM(CAST(has_view AS INT)), 4)` of the
funnel query in `create_sessions`. -/
def viewToCartRate (rows : List SessionRow) : Option ℚ :=
  (sqlDivOpt (sessionsWithCart rows) (sessionsWithView rows)).map round4

/-- `ROUND(SUM(CAST(has_purchase AS INT)) / SUM(CAST(has_cart AS INT)), 4)`. -/
def cartToPurchaseRate (rows : List SessionRow) : Option ℚ :=
  (sqlDivOpt (sessionsWithPurchase rows) (sessionsWithCart rows)).map round4

/-! ## Dimensional Builder (`src/processing/initial_modeling.py`,
`create_dimensional_models`) -/

/-- One row of `dim_products`. -/
structure ProductRow where
  product_id : Nat
  category_id : Nat
  category_code : String
  brand : String
  current_price : ℚ
deriving DecidableEq, Repr

/-- The `dim_products` row built from one event, with the
`COALESCE(category_code, 'unknown')` and `COALESCE(brand, 'unknown')` defaults. -/
def productRowOf (e : Event) : ProductRow :=
  { product_id := e.product_id
    category_id := e.category_id
    category_code := e.category_code.getD "unknown"
    brand := e.brand.getD "unknown"
    current_price := e.price }

/-- `SELECT DISTINCT ON (product_id) ... ORDER BY product_id, event_time DESC`
keeps, for product `p`, the row of some event of `p` whose `event_time` is
maximal among the events of `p`. -/
def isLatestRowFor (events : List Event) (p : Nat) (r : ProductRow) : Prop :=
  ∃ e ∈ events, e.product_id = p ∧ r = productRowOf e ∧
    ∀ e2 ∈ events, e2.product_id = p → e2.event_time ≤ e.event_time

/-- The `dim_products` build as a relation between the event table and the
produced table (keyed by `product_id`).  The `ORDER BY product_id, event_time
DESC` of the `DISTINCT ON` pins the kept row only up to ties in the maximal
`event_time`; DuckDB specifies no tie-break (and the script additionally sets
`preserve_insertion_order=false`), so any choice among the tied maximal events
is an admissible output. -/
def isDimProducts (events : List Event) (t : Nat → Option ProductRow) : Prop :=
  (∀ p r, t p = some r → isLatestRowFor events p r) ∧
  (∀ p, (∃ e ∈ events, e.product_id = p) → ∃ r, t p = some r)

/-- The events of one user (`GROUP BY user_id`). -/
def userEvents (events : List Event) (u : Nat) : List Event :=
  events.filter (fun e => e.user_id == u)

/-- The event times of one user. -/
def userTimes (events : List Event) (u : Nat) : List Nat :=
  (userEvents events u).map (fun e => e.event_time)

/-- `MIN(event_time)` of a user's events: the `first_seen` column of
`dim_users`. -/
def firstSeen (events : List Event) (u : Nat) : Nat := listMin (userTimes events u)

/-- One row of `dim_users`.  The `favorite_category_by_recency` column
(`MAX(CASE WHEN event_type = 'view' THEN category_code END)`) is a further
deterministic aggregate no claim mentions and is not modelled. -/
structure UserRow where
  user_id : Nat
  first_seen : Nat
  last_seen : Nat
  event_count : Nat
  session_count : Nat
  total_spend : ℚ
  purchase_count : Nat
  is_buyer : Bool
deriving DecidableEq, Repr

/-- The `dim_users` aggregation for one user: every column is a plain SQL
aggregate over the user's group, so the row is a function of the group
(`COUNT(DISTINCT user_session)` ignores NULL sessions). -/
def dimUsersRow (events : List Event) (u : Nat) : UserRow :=
  { user_id := u
    first_seen := firstSeen events u
    last_seen := listMax (userTimes events u)
    event_count := (userEvents events u).length
    session_count := ((userEvents events u).filterMap (fun e => e.user_session)).dedup.length
    total_spend := (((userEvents events u).filter isPurchase).map (fun e => e.price)).sum
    purchase_count := (userEvents events u).countP isPurchase
    is_buyer := (userEvents events u).any isPurchase }

/-- The distinct user ids occurring in the event table. -/
def usersList (events : List Event) : List Nat := (events.map (fun e => e.user_id)).dedup

/-- The `dim_users` table. -/
def dimUsers (events : List Event) : List UserRow :=
  (usersList events).map (dimUsersRow events)

/-! ## Cohort Retention Engine (`src/analysis/retention.py`,
`calculate_retention`) -/

/-- `date_trunc('week', t)`: the first instant of the week block containing
`t` (time measured in days). -/
def truncWeek (t : Nat) : Nat := t - t % 7

/-- `date_diff('week', cohort_week, activity_week)` on two week-start
instants. -/
def weeksSince (c aw : Nat) : Int := ((aw : Int) - (c : Int)) / 7

/-- The users of one weekly cohort: those whose `first_seen` truncates to the
cohort week (the `cohort_sizes` CTE). -/
def cohortUsers (events : List Event) (c : Nat) : List Nat :=
  (usersList events).filter (fun u => truncWeek (firstSeen events u) == c)

/-- `cohort_size` of one cohort week. -/
def cohortSize (events : List Event) (c : Nat) : Nat := (cohortUsers events c).length

/-- `COUNT(DISTINCT ua.user_id)` of the retention query at one
`(cohort_week, weeks_since_first)` cell: the cohort users having at least one
event whose activity week sits `w` weeks after the cohort week. -/
def activeUsers (events : List Event) (c : Nat) (w : Int) : Nat :=
  ((cohortUsers events c).filter (fun u =>
    (userTimes events u).any (fun t => weeksSince c (truncWeek t) == w))).length

/-- `retention_rate = CAST(active_users AS DOUBLE) / cohort_size`. -/
def retentionRate (events : List Event) (c : Nat) (w : Int) : ℚ :=
  (activeUsers events c w : ℚ) / (cohortSize events c : ℚ)

/-! ## RFM Segmentation Engine (`src/analysis/segmentation.py`,
`perform_segmentation`) -/

/-- `SELECT MAX(event_time) FROM events` — the recency reference instant. -/
def maxEventTime (events : List Event) : Nat :=
  listMax (events.map (fun e => e.event_time))

/-- The distinct buyers: `FROM events WHERE event_type = 'purchase' GROUP BY
user_id` produces one row per user with at least one purchase event. -/
def buyersList (events : List Event) : List Nat :=
  ((events.filter isPurchase).map (fun e => e.user_id)).dedup

/-- The purchase events of one user. -/
def purchaseEvents (events : List Event) (u : Nat) : List Event :=
  (events.filter isPurchase).filter (fun e => e.user_id == u)

/-- `date_diff('day', MAX(event_time), TIMESTAMP max_date)` over the user's
purchases. -/
def recencyDays (events : List Event) (u : Nat) : Int :=
  (maxEventTime events : Int) -
    (listMax ((purchaseEvents events u).map (fun e => e.event_time)) : Int)

/-- `COUNT(*)` over the user's purchase events. -/
def frequencyCount (events : List Event) (u : Nat) : Nat :=
  (purchaseEvents events u).length

/-- `SUM(price)` over the user's purchase events. -/
def monetaryValue (events : List Event) (u : Nat) : ℚ :=
  ((purchaseEvents events u).map (fun e => e.price)).sum

/-- 0-based position of row `j` when the rows are ordered ascending by `v`,
ties broken by original row order — the sort underlying the
`NTILE(5) OVER (ORDER BY v)` windows. -/
def stableRank {n : Nat} {α : Type} [LinearOrder α] (v : Fin n → α) (j : Fin n) : Nat :=
  (Finset.univ.filter (fun i => v i < v j ∨ (v i = v j ∧ i < j))).card

/-- Start position (0-based) of NTILE(5) bucket `b + 1` over `n` rows: the
first `n % 5` buckets hold `n / 5 + 1` rows, the rest `n / 5` rows. -/
def ntile5Start (n b : Nat) : Nat := b * (n / 5) + min b (n % 5)

/-- `NTILE(5)` over `n` rows: the bucket (1–5) of the row at 0-based sorted
position `i`. -/
def ntile5 (n i : Nat) : Nat :=
  if i < ntile5Start n 1 then 1
  else if i < ntile5Start n 2 then 2
  else if i < ntile5Start n 3 then 3
  else if i < ntile5Start n 4 then 4
  else 5

/-- Recency values of the buyers, in `rfm_base` row order. -/
def recVec (events : List Event) : Fin (buyersList events).length → Int :=
  fun i => recencyDays events ((buyersList events).get i)

/-- Frequency values of the buyers. -/
def freqVec (events : List Event) : Fin (buyersList events).length → Nat :=
  fun i => frequencyCount events ((buyersList events).get i)

/-- Monetary values of the buyers. -/
def monVec (events : List Event) : Fin (buyersList events).length → ℚ :=
  fun i => monetaryValue events ((buyersList events).get i)

/-- `NTILE(5) OVER (ORDER BY recency_days)` for buyer `i`. -/
def rBucketAt (events : List Event) (i : Fin (buyersList events).length) : Nat :=
  ntile5 (buyersList events).length (stableRank (recVec events) i)

/-- `r_score = 6 - NTILE(5) OVER (ORDER BY recency_days)`. -/
def rScoreAt (events : List Event) (i : Fin (buyersList events).length) : Nat :=
  6 - rBucketAt events i

/-- `f_score = NTILE(5) OVER (ORDER BY frequency_count)`. -/
def fScoreAt (events : List Event) (i : Fin (buyersList events).length) : Nat :=
  ntile5 (buyersList events).length (stableRank (freqVec events) i)

/-- `m_score = NTILE(5) OVER (ORDER BY monetary_value)`. -/
def mScoreAt (events : List Event) (i : Fin (buyersList events).length) : Nat :=
  ntile5 (buyersList events).length (stableRank (monVec events) i)

/-- The rule-based `CASE` ladder assigning the segment label. -/
def segmentName (r f : Nat) : String :=
  if 4 ≤ r ∧ 4 ≤ f then "Champions"
  else if 3 ≤ r ∧ 3 ≤ f then "Loyal Customers"
  else if 4 ≤ r ∧ f = 1 then "New Customers"
  else if 3 ≤ r ∧ f = 1 then "Promising"
  else if r = 2 ∧ 2 ≤ f then "Need Attention"
  else if r = 1 ∧ 4 ≤ f then "Cant Lose Them"
  else if r = 1 ∧ f ≤ 2 then "Hibernating"
  else "At Risk"

/-- One row of `analysis_rfm_segments` (the `rfm_code` string column is the
concatenation of the three scores and is not modelled separately). -/
structure RfmRow where
  user_id : Nat
  recency_days : Int
  frequency_count : Nat
  monetary_value : ℚ
  r_score : Nat
  f_score : Nat
  m_score : Nat
  segment_name : String
deriving DecidableEq, Repr

/-- The `analysis_rfm_segments` row of the buyer at position `i`. -/
def rfmRowAt (events : List Event) (i : Fin (buyersList events).length) : RfmRow :=
  { user_id := (buyersList events).get i
    recency_days := recVec events i
    frequency_count := freqVec events i
    monetary_value := monVec events i
    r_score := rScoreAt events i
    f_score := fScoreAt events i
    m_score := mScoreAt events i
    segment_name := segmentName (rScoreAt events i) (fScoreAt events i) }

/-- The `analysis_rfm_segments` table: one row per buyer. -/
def analysisRfmSegments (events : List Event) : List RfmRow :=
  List.ofFn (rfmRowAt events)

/-! ## Feature Store Builder (`src/processing/features.py`,
`build_feature_store`) — the RFM-derived columns of `features_users`.  The
session-aggregate columns come from a separate LEFT JOIN no claim mentions. -/

/-- The RFM-derived columns of one `features_users` row. -/
structure FeatureRow where
  user_id : Nat
  recency_days : Int
  frequency_raw : Nat
  monetary_raw : ℚ
  rfm_segment : String
deriving DecidableEq, Repr

/-- `LEFT JOIN analysis_rfm_segments r ON u.user_id = r.user_id` followed by
the `COALESCE(..., -1 / 0 / 0 / 'Browser')` defaults. -/
def featureRow (events : List Event) (u : Nat) : FeatureRow :=
  match (analysisRfmSegments events).find? (fun r => r.user_id == u) with
  | some r => { user_id := u, recency_days := r.recency_days,
                frequency_raw := r.frequency_count, monetary_raw := r.monetary_value,
                rfm_segment := r.segment_name }
  | none => { user_id := u, recency_days := -1, frequency_raw := 0,
              monetary_raw := 0, rfm_segment := "Browser" }

/-- The RFM-derived columns of `features_users` (base table `dim_users`). -/
def featuresUsers (events : List Event) : List FeatureRow :=
  (usersList events).map (featureRow events)

/-! ## Affinity Engine (`src/models/recommendations.py`,
`build_recommendations`) -/

/-- The `baskets` temp table: `(user_session, product_id)` of purchase events
(no NULL filter in the source query). -/
def baskets (events : List Event) : List (Option Nat × Nat) :=
  (events.filter isPurchase).map (fun e => (e.user_session, e.product_id))

/-- SQL equality on the nullable `user_session` join key: NULL joins nothing. -/
def sessEq (x y : Option Nat) : Bool :=
  match x, y with
  | some a, some b => a == b
  | _, _ => false

/-- Row count of the join of `l1` and `l2` under join condition `p`. -/
def joinCount {α β : Type} (l1 : List α) (l2 : List β) (p : α → β → Bool) : Nat :=
  (l1.map (fun x => l2.countP (p x))).sum

/-- `COUNT(*)` of the basket self-join rows for the ordered product pair
`(a, b)`: `JOIN ... ON a.user_session = b.user_session`. -/
def pairCount (events : List Event) (a b : Nat) : Nat :=
  joinCount (baskets events) (baskets events)
    (fun x y => x.2 == a && y.2 == b && sessEq x.1 y.1)

/-- The `product_counts` temp table: `COUNT(*) FROM baskets GROUP BY
product_id` — the number of purchase events of the product, not its distinct
purchase sessions. -/
def productCnt (events : List Event) (p : Nat) : Nat :=
  (baskets events).countP (fun x => x.2 == p)

/-- `SELECT COUNT(DISTINCT user_session) FROM baskets`. -/
def totalSessions (events : List Event) : Nat :=
  ((baskets events).filterMap Prod.fst).dedup.length

/-- The distinct products occurring in baskets (the possible group keys of the
self-join). -/
def candidateProducts (events : List Event) : List Nat :=
  ((baskets events).map Prod.snd).dedup

/-- `(p.pair_count::DOUBLE / pa.cnt)` — the stored `confidence` column. -/
def confidenceVal (events : List Event) (a b : Nat) : ℚ :=
  (pairCount events a b : ℚ) / (productCnt events a : ℚ)

/-- `(p.pair_count * total_sessions) / (pa.cnt * pb.cnt)` — the stored `lift`
column (DuckDB `/` on integers is double division). -/
def liftVal (events : List Event) (a b : Nat) : ℚ :=
  ((pairCount events a b : ℚ) * (totalSessions events : ℚ)) /
    ((productCnt events a : ℚ) * (productCnt events b : ℚ))

/-- The `lift > 1.2` filter, decided on integers by cross-multiplication (an
executable form of `12/10 < liftVal`; see `liftGtBool_iff`). -/
def liftGtBool (events : List Event) (a b : Nat) : Bool :=
  12 * (productCnt events a * productCnt events b) <
    10 * (pairCount events a b * totalSessions events)

/-- One row of `predictions_product_affinity`. -/
structure AffinityRule where
  product_a : Nat
  product_b : Nat
  pair_count : Nat
  confidence : ℚ
  lift : ℚ
deriving Repr

/-- The ordered product pairs surviving `WHERE a.product_id != b.product_id`,
`HAVING COUNT(*) >= 5` and `WHERE lift > 1.2` — the key set of
`predictions_product_affinity` (the final `ORDER BY lift DESC` only permutes
rows and is not modelled). -/
def affinityPairs (events : List Event) : List (Nat × Nat) :=
  ((candidateProducts events).flatMap (fun a =>
      (candidateProducts events).map (fun b => (a, b)))).filter (fun ab =>
    ab.1 != ab.2 && decide (5 ≤ pairCount events ab.1 ab.2) &&
      liftGtBool events ab.1 ab.2)

/-- The `SELECT` list of the `predictions_product_affinity` query applied to
one surviving pair. -/
def mkAffinityRule (events : List Event) (ab : Nat × Nat) : AffinityRule :=
  { product_a := ab.1
    product_b := ab.2
    pair_count := pairCount events ab.1 ab.2
    confidence := confidenceVal events ab.1 ab.2
    lift := liftVal events ab.1 ab.2 }

def predictionsProductAffinity (events : List Event) : List AffinityRule :=
  (affinityPairs events).map (mkAffinityRule events)

/-- The spec's notion of per-product support: the number of distinct sessions
in which the product was purchased (`Modelled from the spec` for comparison
with the code's `productCnt`). -/
def supportSpec (events : List Event) (p : Nat) : Nat :=
  (((baskets events).filter (fun x => x.2 == p)).filterMap Prod.fst).dedup.length

/-! ## Stage error handling (the `try/except/finally` wrapper shared by
`perform_segmentation`, `build_recommendations` and the other stage
entry points) -/

/-- Outcome of one stage run: the database state, how many statements
completed, what the `except` block logged, and what escaped to the caller. -/
structure StageRun (σ : Type) where
  state : σ
  completed : Nat
  errorLogged : Option String
  raisedToCaller : Option String
deriving Repr

/-- Run the stage's statements in order, stopping at the first failing one
(the body of the `try` block: each `con.execute` either commits its effect or
raises). -/
def runStatements {σ : Type} : List (σ → Except String σ) → σ → σ × Nat × Option String
  | [], s => (s, 0, none)
  | f :: fs, s =>
    match f s with
    | Except.ok s2 =>
      match runStatements fs s2 with
      | (s3, n, err) => (s3, n + 1, err)
    | Except.error msg => (s, 0, some msg)

/-- The whole stage: `try: statements... except Exception as e:
logger.error(...)` — the handler logs and falls through to `finally`, so
nothing is re-raised. -/
def runStage {σ : Type} (stmts : List (σ → Except String σ)) (s : σ) : StageRun σ :=
  match runStatements stmts s with
  | (s2, n, err) => { state := s2, completed := n, errorLogged := err, raisedToCaller := none }

/-- Apply a prefix of statements, succeeding only if all of them do. -/
def applyAll {σ : Type} : List (σ → Except String σ) → σ → Option σ
  | [], s => some s
  | f :: fs, s =>
    match f s with
    | Except.ok s2 => applyAll fs s2
    | Except.error _ => none

/-! ## Lemmas about the affinity self-join -/

theorem sum_map_zero {α : Type} (l : List α) : (l.map (fun _ => (0 : Nat))).sum = 0 := by
  induction l with
  | nil => rfl
  | cons x xs ih => simp only [List.map_cons, List.sum_cons, ih]

theorem sum_map_add {α : Type} (l : List α) (f g : α → Nat) :
    (l.map (fun x => f x + g x)).sum = (l.map f).sum + (l.map g).sum := by
  induction l with
  | nil => rfl
  | cons x xs ih =>
    simp only [List.map_cons, List.sum_cons, ih]
    omega

theorem sum_map_ite_eq_countP {α : Type} (l : List α) (p : α → Bool) :
    (l.map (fun x => if p x then 1 else 0)).sum = l.countP p := by
  induction l with
  | nil => rfl
  | cons x xs ih =>
    simp only [List.map_cons, List.sum_cons, List.countP_cons, ih]
    omega

theorem joinCount_comm {α β : Type} (l1 : List α) (l2 : List β) (p : α → β → Bool) :
    joinCount l1 l2 p = joinCount l2 l1 (fun y x => p x y) := by
  induction l1 with
  | nil =>
    rw [joinCount, joinCount]
    simp only [List.map_nil, List.sum_nil, List.countP_nil]
    exact (sum_map_zero l2).symm
  | cons x xs ih =>
    simp only [joinCount, List.map_cons, List.sum_cons]
    have hcons : ∀ y : β, List.countP (fun x2 => p x2 y) (x :: xs) =
        List.countP (fun x2 => p x2 y) xs + (if p x y then 1 else 0) := by
      intro y
      rw [List.countP_cons]
    rw [joinCount] at ih
    calc List.countP (p x) l2 + (xs.map (fun x2 => List.countP (p x2) l2)).sum
        = List.countP (p x) l2 +
            (l2.map (fun y => List.countP (fun x2 => p x2 y) xs)).sum := by
          rw [ih, joinCount]
      _ = (l2.map (fun y => if p x y then 1 else 0)).sum +
            (l2.map (fun y => List.countP (fun x2 => p x2 y) xs)).sum := by
          rw [sum_map_ite_eq_countP]
      _ = (l2.map (fun y => List.countP (fun x2 => p x2 y) xs + (if p x y then 1 else 0))).sum := by
          rw [sum_map_add]; omega
      _ = (l2.map (fun y => List.countP (fun x2 => p x2 y) (x :: xs))).sum := by
          congr 1
          exact List.map_congr_left (fun y _ => (hcons y).symm)

theorem joinCount_congr {α β : Type} (l1 : List α) (l2 : List β) (p q : α → β → Bool)
    (h : ∀ x y, p x y = q x y) : joinCount l1 l2 p = joinCount l1 l2 q := by
  have hpq : p = q := funext fun x => funext fun y => h x y
  rw [hpq]

theorem sessEq_symm (x y : Option Nat) : sessEq x y = sessEq y x := by
  cases x <;> cases y <;> simp only [sessEq]
  rw [Bool.eq_iff_iff]
  simp only [beq_iff_eq]
  exact eq_comm

theorem pairCount_symm (events : List Event) (a b : Nat) :
    pairCount events a b = pairCount events b a := by
  rw [pairCount, pairCount, joinCount_comm]
  apply joinCount_congr
  intro x y
  rw [sessEq_symm, Bool.and_comm (y.2 == a) (x.2 == b)]

theorem liftGtBool_symm (events : List Event) (a b : Nat) :
    liftGtBool events a b = liftGtBool events b a := by
  simp only [liftGtBool]
  rw [pairCount_symm, Nat.mul_comm (productCnt events a) (productCnt events b)]

theorem liftVal_symm (events : List Event) (a b : Nat) :
    liftVal events a b = liftVal events b a := by
  rw [liftVal, liftVal, pairCount_symm, mul_comm ((productCnt events a : ℚ)) _]

theorem mem_affinityPairs (events : List Event) (ab : Nat × Nat) :
    ab ∈ affinityPairs events ↔
      ab.1 ∈ candidateProducts events ∧ ab.2 ∈ candidateProducts events ∧
      ab.1 ≠ ab.2 ∧ 5 ≤ pairCount events ab.1 ab.2 ∧ liftGtBool events ab.1 ab.2 := by
  rw [affinityPairs, List.mem_filter, List.mem_flatMap]
  constructor
  · rintro ⟨⟨a, ha, hab⟩, hfilt⟩
    rcases List.mem_map.mp hab with ⟨b, hb, rfl⟩
    simp only [Bool.and_eq_true, bne_iff_ne, ne_eq, decide_eq_true_eq] at hfilt
    exact ⟨ha, hb, hfilt.1.1, hfilt.1.2, hfilt.2⟩
  · rintro ⟨ha, hb, hne, hcnt, hlift⟩
    refine ⟨⟨ab.1, ha, List.mem_map.mpr ⟨ab.2, hb, rfl⟩⟩, ?_⟩
    simp only [Bool.and_eq_true, bne_iff_ne, ne_eq, decide_eq_true_eq]
    exact ⟨⟨hne, hcnt⟩, hlift⟩

theorem affinityPairs_mirror (events : List Event) (ab : Nat × Nat)
    (h : ab ∈ affinityPairs events) : (ab.2, ab.1) ∈ affinityPairs events := by
  rcases (mem_affinityPairs events ab).mp h with ⟨ha, hb, hne, hcnt, hlift⟩
  refine (mem_affinityPairs events (ab.2, ab.1)).mpr ⟨hb, ha, ?_, ?_, ?_⟩
  · exact fun hc => hne hc.symm
  · rw [pairCount_symm]; exact hcnt
  · rw [liftGtBool_symm]; exact hlift

/-! ## Concrete example tables -/

/-- A purchase event with the given time, user, product, session and price. -/
def purchaseEv (t u p : Nat) (sid : Option Nat) (pr : ℚ) : Event :=
  { event_time := t, event_type := EventType.purchase, product_id := p,
    category_id := 0, category_code := none, brand := none, price := pr,
    user_id := u, user_session := sid }

/-- A view event with the given time, user, product and session. -/
def viewEv (t u p : Nat) (sid : Option Nat) : Event :=
  { event_time := t, event_type := EventType.view, product_id := p,
    category_id := 0, category_code := none, brand := none, price := 0,
    user_id := u, user_session := sid }

/-- Five sessions each purchase products 1 and 2; three further sessions
purchase product 3 (so the pair (1,2) has pair_count 5 and lift 8/5). -/
def exAffinity : List Event :=
  [purchaseEv 0 1 1 (some 1) 1, purchaseEv 0 1 2 (some 1) 1,
   purchaseEv 0 2 1 (some 2) 1, purchaseEv 0 2 2 (some 2) 1,
   purchaseEv 0 3 1 (some 3) 1, purchaseEv 0 3 2 (some 3) 1,
   purchaseEv 0 4 1 (some 4) 1, purchaseEv 0 4 2 (some 4) 1,
   purchaseEv 0 5 1 (some 5) 1, purchaseEv 0 5 2 (some 5) 1,
   purchaseEv 0 6 3 (some 6) 1, purchaseEv 0 7 3 (some 7) 1,
   purchaseEv 0 8 3 (some 8) 1]

/-- Like `exAffinity` but session 1 purchases product 1 twice, so product 1
has 5 purchase events in only 4 distinct sessions. -/
def exAffinityDup : List Event :=
  [purchaseEv 0 1 1 (some 1) 1, purchaseEv 0 1 1 (some 1) 1,
   purchaseEv 0 1 2 (some 1) 1,
   purchaseEv 0 2 1 (some 2) 1, purchaseEv 0 2 2 (some 2) 1,
   purchaseEv 0 3 1 (some 3) 1, purchaseEv 0 3 2 (some 3) 1,
   purchaseEv 0 4 1 (some 4) 1, purchaseEv 0 4 2 (some 4) 1,
   purchaseEv 0 5 3 (some 5) 1, purchaseEv 0 6 3 (some 6) 1,
   purchaseEv 0 7 3 (some 7) 1]

/-! ## C1 -/

/-- C1 (amended): the self-join keeps `a.product_id != b.product_id`, not
`product_a < product_b`, so every stored rule has distinct products and every
unordered pair appears in both directions with equal `pair_count` and `lift`
(the mirrored row always exists). -/
theorem affinity_rules_bidirectional (events : List Event) :
    (∀ r ∈ predictionsProductAffinity events, r.product_a ≠ r.product_b) ∧
    (∀ r ∈ predictionsProductAffinity events, ∃ r2 ∈ predictionsProductAffinity events,
      r2.product_a = r.product_b ∧ r2.product_b = r.product_a ∧
      r2.pair_count = r.pair_count ∧ r2.lift = r.lift) := by
  constructor
  · intro r hr
    rcases List.mem_map.mp hr with ⟨ab, hab, rfl⟩
    exact ((mem_affinityPairs events ab).mp hab).2.2.1
  · intro r hr
    rcases List.mem_map.mp hr with ⟨ab, hab, rfl⟩
    refine ⟨mkAffinityRule events (ab.2, ab.1),
      List.mem_map.mpr ⟨(ab.2, ab.1), affinityPairs_mirror events ab hab, rfl⟩,
      rfl, rfl, ?_, ?_⟩
    · exact pairCount_symm events ab.2 ab.1
    · exact liftVal_symm events ab.2 ab.1

/-- Witness for C1: on `exAffinity` the rule for the pair (1,2) is stored and
the theorem yields `product_a ≠ product_b` for it. -/
theorem affinity_rules_bidirectional_witness :
    mkAffinityRule exAffinity (1, 2) ∈ predictionsProductAffinity exAffinity ∧
    (mkAffinityRule exAffinity (1, 2)).product_a ≠
      (mkAffinityRule exAffinity (1, 2)).product_b := by
  have hm : mkAffinityRule exAffinity (1, 2) ∈ predictionsProductAffinity exAffinity :=
    List.mem_map.mpr ⟨(1, 2), by decide, rfl⟩
  exact ⟨hm, (affinity_rules_bidirectional exAffinity).1 _ hm⟩

/-- Counterexample to C1 as stated: `exAffinity` stores a rule with
`product_a = 2 > product_b = 1`, so not every row satisfies
`product_a < product_b`. -/
theorem affinity_canonical_order_cex :
    ∃ r ∈ predictionsProductAffinity exAffinity, ¬ r.product_a < r.product_b := by
  refine ⟨mkAffinityRule exAffinity (2, 1),
    List.mem_map.mpr ⟨(2, 1), by decide, rfl⟩, by decide⟩

/-! ## C2 -/

/-- No product is purchased twice in the same session and every purchase
event carries a session: under this condition purchase-event counts and
distinct-purchase-session counts coincide. -/
def basketsClean (events : List Event) : Prop :=
  (baskets events).Nodup ∧ ∀ x ∈ baskets events, x.1 ≠ none

theorem filterMap_fst_dedup_length (l : List (Option Nat × Nat)) (p : Nat)
    (hnd : l.Nodup) (hs : ∀ x ∈ l, x.1 ≠ none) (hp : ∀ x ∈ l, x.2 = p) :
    (l.filterMap Prod.fst).dedup.length = l.length := by
  induction l with
  | nil => rfl
  | cons x xs ih =>
    rcases hx1 : x.1 with _ | s
    · exact absurd hx1 (hs x (List.mem_cons_self _ _))
    · have hfm : (x :: xs).filterMap Prod.fst = s :: xs.filterMap Prod.fst := by
        rw [List.filterMap_cons, hx1]
      have hnotin : s ∉ xs.filterMap Prod.fst := by
        intro hmem
        rcases List.mem_filterMap.mp hmem with ⟨y, hy, hy1⟩
        have hxy : x = y := by
          have h2 : x.2 = y.2 := by
            rw [hp x (List.mem_cons_self _ _), hp y (List.mem_cons_of_mem _ hy)]
          have h1 : x.1 = y.1 := by rw [hx1, hy1]
          exact Prod.ext h1 h2
        exact (List.nodup_cons.mp hnd).1 (hxy ▸ hy)
      rw [hfm, List.dedup_cons_of_not_mem hnotin, List.length_cons, List.length_cons,
        ih (List.nodup_cons.mp hnd).2 (fun y hy => hs y (List.mem_cons_of_mem _ hy))
          (fun y hy => hp y (List.mem_cons_of_mem _ hy))]

theorem productCnt_eq_supportSpec (events : List Event) (h : basketsClean events)
    (p : Nat) : productCnt events p = supportSpec events p := by
  rw [productCnt, supportSpec, List.countP_eq_length_filter]
  have hl : ((baskets events).filter (fun x => x.2 == p)).Sublist (baskets events) :=
    List.filter_sublist (baskets events)
  refine (filterMap_fst_dedup_length _ p ?_ ?_ ?_).symm
  · exact h.1.sublist hl
  · exact fun x hx => h.2 x (hl.mem hx)
  · exact fun x hx => beq_iff_eq.mp (List.mem_filter.mp hx).2

/-- C2 (amended): the stored `confidence` and `lift` divide by the purchase
EVENT count of each product (`product_counts`), which agrees with the spec's
distinct-session support exactly when no product is purchased twice in one
session and sessions are non-NULL; under that condition the claimed formulas
hold for every stored rule. -/
theorem affinity_confidence_lift_formulas (events : List Event)
    (h : basketsClean events) :
    ∀ r ∈ predictionsProductAffinity events,
      r.confidence = (r.pair_count : ℚ) / (supportSpec events r.product_a : ℚ) ∧
      r.lift = ((r.pair_count : ℚ) * (totalSessions events : ℚ)) /
        ((supportSpec events r.product_a : ℚ) * (supportSpec events r.product_b : ℚ)) := by
  intro r hr
  rcases List.mem_map.mp hr with ⟨ab, _, rfl⟩
  constructor
  · show confidenceVal events ab.1 ab.2 = _
    rw [confidenceVal, productCnt_eq_supportSpec events h ab.1]
    rfl
  · show liftVal events ab.1 ab.2 = _
    rw [liftVal, productCnt_eq_supportSpec events h ab.1,
      productCnt_eq_supportSpec events h ab.2]
    rfl

/-- Witness for C2: `exAffinity` is duplicate-free, its rule (1,2) is stored,
and the amended formulas hold there. -/
theorem affinity_confidence_lift_formulas_witness :
    basketsClean exAffinity ∧
    ((mkAffinityRule exAffinity (1, 2)).confidence =
      ((mkAffinityRule exAffinity (1, 2)).pair_count : ℚ) /
        (supportSpec exAffinity (mkAffinityRule exAffinity (1, 2)).product_a : ℚ) ∧
     (mkAffinityRule exAffinity (1, 2)).lift =
      (((mkAffinityRule exAffinity (1, 2)).pair_count : ℚ) *
          (totalSessions exAffinity : ℚ)) /
        ((supportSpec exAffinity (mkAffinityRule exAffinity (1, 2)).product_a : ℚ) *
          (supportSpec exAffinity (mkAffinityRule exAffinity (1, 2)).product_b : ℚ))) := by
  have hc : basketsClean exAffinity := ⟨by decide, by decide⟩
  have hm : mkAffinityRule exAffinity (1, 2) ∈ predictionsProductAffinity exAffinity :=
    List.mem_map.mpr ⟨(1, 2), by decide, rfl⟩
  exact ⟨hc, affinity_confidence_lift_formulas exAffinity hc _ hm⟩

/-- Counterexample to C2 as stated: on `exAffinityDup` the stored rule (1,2)
has `confidence = 5/5` (five purchase events of product 1) while the claimed
`pair_count / support(A)` with support = distinct sessions is `5/4`. -/
theorem affinity_confidence_support_cex :
    ∃ r ∈ predictionsProductAffinity exAffinityDup,
      r.product_a = 1 ∧ r.product_b = 2 ∧
      r.confidence ≠ (r.pair_count : ℚ) / (supportSpec exAffinityDup r.product_a : ℚ) := by
  refine ⟨mkAffinityRule exAffinityDup (1, 2),
    List.mem_map.mpr ⟨(1, 2), by decide, rfl⟩, rfl, rfl, ?_⟩
  show confidenceVal exAffinityDup 1 2 ≠
    (pairCount exAffinityDup 1 2 : ℚ) / (supportSpec exAffinityDup 1 : ℚ)
  have h1 : pairCount exAffinityDup 1 2 = 5 := by decide
  have h2 : productCnt exAffinityDup 1 = 5 := by decide
  have h3 : supportSpec exAffinityDup 1 = 4 := by decide
  rw [confidenceVal, h1, h2, h3]
  norm_num

/-! ## C3 -/

theorem runStatements_partial {σ : Type} (stmts : List (σ → Except String σ)) (s : σ) :
    (runStatements stmts s).2.1 ≤ stmts.length ∧
    applyAll (stmts.take (runStatements stmts s).2.1) s = some (runStatements stmts s).1 ∧
    ((runStatements stmts s).2.2 = none → (runStatements stmts s).2.1 = stmts.length) ∧
    ((runStatements stmts s).2.2 ≠ none → (runStatements stmts s).2.1 < stmts.length) := by
  induction stmts generalizing s with
  | nil => simp [runStatements, applyAll]
  | cons f fs ih =>
    cases hf : f s with
    | error msg => simp [runStatements, hf, applyAll]
    | ok s2 =>
      obtain ⟨h1, h2, h3, h4⟩ := ih s2
      rcases hr : runStatements fs s2 with ⟨s3, n, err⟩
      rw [hr] at h1 h2 h3 h4
      simp only at h1 h2 h3 h4
      have hrun : runStatements (f :: fs) s = (s3, n + 1, err) := by
        simp [runStatements, hf, hr]
      rw [hrun]
      simp only [List.length_cons]
      refine ⟨Nat.succ_le_succ h1, ?_, ?_, ?_⟩
      · rw [List.take_succ_cons]
        simp only [applyAll, hf]
        exact h2
      · intro he; exact congrArg Nat.succ (h3 he)
      · intro he; exact Nat.succ_lt_succ (h4 he)

/-- C3 (corrected, amended): the `except` block of every stage only logs — it
never re-raises, so the exception does NOT propagate to the caller
(`raisedToCaller` is always `none`); what does hold is that the published
state is exactly the one produced by the successfully completed prefix of
statements, so no partial output beyond previously completed statements
appears, and an error is logged exactly when not all statements ran. -/
theorem stage_swallows_exception_no_partial_output {σ : Type}
    (stmts : List (σ → Except String σ)) (s : σ) :
    (runStage stmts s).raisedToCaller = none ∧
    (runStage stmts s).completed ≤ stmts.length ∧
    applyAll (stmts.take (runStage stmts s).completed) s = some (runStage stmts s).state ∧
    ((runStage stmts s).errorLogged = none →
      (runStage stmts s).completed = stmts.length) ∧
    ((runStage stmts s).errorLogged ≠ none →
      (runStage stmts s).completed < stmts.length) := by
  obtain ⟨h1, h2, h3, h4⟩ := runStatements_partial stmts s
  rcases hr : runStatements stmts s with ⟨s3, n, err⟩
  rw [hr] at h1 h2 h3 h4
  simp only at h1 h2 h3 h4
  have hst : runStage stmts s = ⟨s3, n, err, none⟩ := by simp [runStage, hr]
  rw [hst]
  exact ⟨rfl, h1, h2, h3, h4⟩

/-- A three-statement stage whose middle statement raises. -/
def exStmts3 : List (Nat → Except String Nat) :=
  [fun s => Except.ok (s + 1), fun _ => Except.error "boom",
   fun s => Except.ok (s + 10)]

/-- Witness for C3: the amended theorem instantiated on the concrete failing
stage `exStmts3` started in state 0. -/
theorem stage_swallows_exception_no_partial_output_witness :
    (runStage exStmts3 0).raisedToCaller = none ∧
    (runStage exStmts3 0).completed ≤ exStmts3.length ∧
    applyAll (exStmts3.take (runStage exStmts3 0).completed) 0 =
      some (runStage exStmts3 0).state ∧
    ((runStage exStmts3 0).errorLogged = none →
      (runStage exStmts3 0).completed = exStmts3.length) ∧
    ((runStage exStmts3 0).errorLogged ≠ none →
      (runStage exStmts3 0).completed < exStmts3.length) :=
  stage_swallows_exception_no_partial_output exStmts3 0

/-- Counterexample to C3 as stated: on `exStmts3` the stage logs the failure
but `raisedToCaller` stays `none` — the exception is swallowed, not
re-raised — while the state keeps exactly the first statement's effect. -/
theorem stage_reraise_cex :
    (runStage exStmts3 0).errorLogged = some "boom" ∧
    (runStage exStmts3 0).raisedToCaller = none ∧
    (runStage exStmts3 0).state = 1 ∧
    (runStage exStmts3 0).completed = 1 := by
  refine ⟨rfl, rfl, rfl, rfl⟩

/-! ## C4 -/

/-- C4 (corrected, amended): `dim_users` is a pure aggregation — in this
embedding literally a function of the event table, so re-running reproduces
it — and the `dim_products` output is unique (re-running yields the identical
table) PROVIDED any two events of one product sharing an event_time induce
the same row (same category/brand/price after defaulting); when events tied
at a product's maximal event_time disagree, the kept row is engine-dependent
(see the counterexample). -/
theorem dim_products_unique (events : List Event)
    (hTies : ∀ e1 ∈ events, ∀ e2 ∈ events, e1.product_id = e2.product_id →
      e1.event_time = e2.event_time → productRowOf e1 = productRowOf e2)
    (t1 t2 : Nat → Option ProductRow)
    (h1 : isDimProducts events t1) (h2 : isDimProducts events t2) : t1 = t2 := by
  funext p
  by_cases hp : ∃ e ∈ events, e.product_id = p
  · obtain ⟨r1, hr1⟩ := h1.2 p hp
    obtain ⟨r2, hr2⟩ := h2.2 p hp
    obtain ⟨e1, he1, hpe1, hre1, hmax1⟩ := h1.1 p r1 hr1
    obtain ⟨e2, he2, hpe2, hre2, hmax2⟩ := h2.1 p r2 hr2
    have htime : e1.event_time = e2.event_time :=
      le_antisymm (hmax2 e1 he1 hpe1) (hmax1 e2 he2 hpe2)
    rw [hr1, hr2, hre1, hre2,
      hTies e1 he1 e2 he2 (hpe1.trans hpe2.symm) htime]
  · rcases ht1 : t1 p with _ | r1
    · rcases ht2 : t2 p with _ | r2
      · rfl
      · obtain ⟨e, he, hpe, -, -⟩ := h2.1 p r2 ht2
        exact absurd ⟨e, he, hpe⟩ hp
    · obtain ⟨e, he, hpe, -, -⟩ := h1.1 p r1 ht1
      exact absurd ⟨e, he, hpe⟩ hp

/-- Two events of product 1 tied at the maximal event_time with different
prices: either may be kept by `DISTINCT ON`. -/
def exDimTie : List Event := [purchaseEv 10 1 1 none 5, purchaseEv 10 2 1 none 7]

/-- Product 1 with a unique latest event (no tie). -/
def exDimNoTie : List Event := [purchaseEv 10 1 1 none 5, purchaseEv 11 2 1 none 7]

/-- The `dim_products` table keeping the first event of `exDimTie`. -/
def dimTieTableA : Nat → Option ProductRow := fun p =>
  if p = 1 then some (productRowOf (purchaseEv 10 1 1 none 5)) else none

/-- The `dim_products` table keeping the second event of `exDimTie`. -/
def dimTieTableB : Nat → Option ProductRow := fun p =>
  if p = 1 then some (productRowOf (purchaseEv 10 2 1 none 7)) else none

/-- The `dim_products` table of `exDimNoTie` (latest row is the time-11 event). -/
def dimNoTieTable : Nat → Option ProductRow := fun p =>
  if p = 1 then some (productRowOf (purchaseEv 11 2 1 none 7)) else none

theorem twoEvent_isDimProducts (a b : Event) (hp : a.product_id = b.product_id)
    (t : Nat → Option ProductRow) (e : Event) (he : e = a ∨ e = b)
    (hmax : ∀ e2, e2 = a ∨ e2 = b → e2.event_time ≤ e.event_time)
    (ht : t = fun p => if p = a.product_id then some (productRowOf e) else none) :
    isDimProducts [a, b] t := by
  have hep : e.product_id = a.product_id := by
    rcases he with rfl | rfl
    · rfl
    · exact hp.symm
  constructor
  · intro p r hr
    rw [ht] at hr
    simp only at hr
    by_cases hpa : p = a.product_id
    · subst hpa
      rw [if_pos rfl, Option.some_inj] at hr
      refine ⟨e, ?_, hep, hr.symm, ?_⟩
      · rcases he with rfl | rfl
        · exact List.mem_cons_self _ _
        · exact List.mem_cons_of_mem _ (List.mem_cons_self _ _)
      · intro e2 he2 _
        apply hmax
        rcases List.mem_cons.mp he2 with rfl | he3
        · exact Or.inl rfl
        · rcases List.mem_cons.mp he3 with rfl | h
          · exact Or.inr rfl
          · cases h
    · rw [if_neg hpa] at hr
      cases hr
  · intro p hpe
    obtain ⟨e2, he2, hpe2⟩ := hpe
    have hpa : p = a.product_id := by
      rcases List.mem_cons.mp he2 with rfl | he3
      · exact hpe2.symm
      · rcases List.mem_cons.mp he3 with rfl | h
        · exact hpe2.symm ▸ hp.symm ▸ rfl
        · cases h
    subst hpa
    rw [ht]
    exact ⟨productRowOf e, if_pos rfl⟩

theorem dimTieTableA_ok : isDimProducts exDimTie dimTieTableA := by
  apply twoEvent_isDimProducts (purchaseEv 10 1 1 none 5) (purchaseEv 10 2 1 none 7)
    rfl dimTieTableA (purchaseEv 10 1 1 none 5) (Or.inl rfl)
  · rintro e2 (rfl | rfl) <;> exact le_rfl
  · rfl

theorem dimTieTableB_ok : isDimProducts exDimTie dimTieTableB := by
  apply twoEvent_isDimProducts (purchaseEv 10 1 1 none 5) (purchaseEv 10 2 1 none 7)
    rfl dimTieTableB (purchaseEv 10 2 1 none 7) (Or.inr rfl)
  · rintro e2 (rfl | rfl) <;> exact le_rfl
  · rfl

theorem dimNoTieTable_ok : isDimProducts exDimNoTie dimNoTieTable := by
  apply twoEvent_isDimProducts (purchaseEv 10 1 1 none 5) (purchaseEv 11 2 1 none 7)
    rfl dimNoTieTable (purchaseEv 11 2 1 none 7) (Or.inr rfl)
  · rintro e2 (rfl | rfl)
    · show (10 : Nat) ≤ 11; omega
    · exact le_rfl
  · rfl

/-- Counterexample to C4 as stated: on `exDimTie` both `dimTieTableA` and
`dimTieTableB` are admissible `dim_products` outputs, and they differ (the
kept `current_price` is 5 in one and 7 in the other), so two runs need not
produce identical `dim_products` when events tie at the maximal
event_time. -/
theorem dim_products_tie_cex :
    isDimProducts exDimTie dimTieTableA ∧ isDimProducts exDimTie dimTieTableB ∧
    dimTieTableA ≠ dimTieTableB := by
  refine ⟨dimTieTableA_ok, dimTieTableB_ok, fun h => ?_⟩
  have h1 : some (productRowOf (purchaseEv 10 1 1 none 5)) =
      some (productRowOf (purchaseEv 10 2 1 none 7)) := by
    have h0 := congrFun h 1
    simpa [dimTieTableA, dimTieTableB] using h0
  have h2 := Option.some_inj.mp h1
  have h3 : (5 : ℚ) = 7 := congrArg ProductRow.current_price h2
  norm_num at h3

/-- Witness for C4: on `exDimNoTie` (unique latest event per product) the
tie-agreement hypothesis holds and any two admissible `dim_products` outputs
coincide. -/
theorem dim_products_unique_witness : dimNoTieTable = dimNoTieTable := by
  have hTies : ∀ e1 ∈ exDimNoTie, ∀ e2 ∈ exDimNoTie,
      e1.product_id = e2.product_id → e1.event_time = e2.event_time →
      productRowOf e1 = productRowOf e2 := by
    intro e1 he1 e2 he2 _ htime
    rcases List.mem_cons.mp he1 with rfl | he1b
    · rcases List.mem_cons.mp he2 with rfl | he2b
      · rfl
      · rcases List.mem_cons.mp he2b with rfl | h
        · exact absurd htime (by decide)
        · cases h
    · rcases List.mem_cons.mp he1b with rfl | h
      · rcases List.mem_cons.mp he2 with rfl | he2b
        · exact absurd htime (by decide)
        · rcases List.mem_cons.mp he2b with rfl | h
          · rfl
          · cases h
      · cases h
  exact dim_products_unique exDimNoTie hTies dimNoTieTable dimNoTieTable
    dimNoTieTable_ok dimNoTieTable_ok

/-! ## C5 -/

theorem mem_usersList_iff (events : List Event) (u : Nat) :
    u ∈ usersList events ↔ ∃ e ∈ events, e.user_id = u := by
  rw [usersList, List.mem_dedup, List.mem_map]

theorem userTimes_ne_nil (events : List Event) (u : Nat)
    (hu : u ∈ usersList events) : userTimes events u ≠ [] := by
  obtain ⟨e, he, hue⟩ := (mem_usersList_iff events u).mp hu
  have hmem : e.event_time ∈ userTimes events u := by
    rw [userTimes]
    exact List.mem_map.mpr ⟨e, List.mem_filter.mpr ⟨he, by simp [hue]⟩, rfl⟩
  intro hnil
  rw [hnil] at hmem
  cases hmem

/-- C5 (confirmed): `first_seen` is the MIN of the user's event times, so
every cohort user has an event in week offset 0 and retention at
`weeks_since_first = 0` is exactly 1 for every nonempty cohort. -/
theorem retention_week0_is_one (events : List Event) (c : Nat)
    (hc : 0 < cohortSize events c) : retentionRate events c 0 = 1 := by
  have hall : activeUsers events c 0 = cohortSize events c := by
    rw [activeUsers, cohortSize]
    congr 1
    apply List.filter_eq_self.mpr
    intro u hu
    have huL : u ∈ usersList events := (List.mem_filter.mp hu).1
    have hcw : truncWeek (firstSeen events u) = c :=
      beq_iff_eq.mp (List.mem_filter.mp hu).2
    apply List.any_eq_true.mpr
    refine ⟨firstSeen events u, listMin_mem _ (userTimes_ne_nil events u huL), ?_⟩
    rw [hcw]
    simp [weeksSince]
  rw [retentionRate, hall]
  have hne : (cohortSize events c : ℚ) ≠ 0 := by
    exact_mod_cast Nat.pos_iff_ne_zero.mp hc
  field_simp

/-- Three events, two users, all first seen in week 0. -/
def exRetention : List Event :=
  [viewEv 0 1 1 none, viewEv 3 2 1 none, viewEv 10 1 1 none]

/-- Witness for C5: the week-0 cohort of `exRetention` is nonempty and its
retention at offset 0 equals 1. -/
theorem retention_week0_is_one_witness :
    0 < cohortSize exRetention 0 ∧ retentionRate exRetention 0 0 = 1 :=
  ⟨by decide, retention_week0_is_one exRetention 0 (by decide)⟩

/-! ## NTILE lemmas (for C6 and C8) -/

theorem ntile5Start_le (n b : Nat) (hb : b ≤ 5) : ntile5Start n b ≤ n := by
  interval_cases b <;> (rw [ntile5Start]; omega)

theorem ntile5_pos (n i : Nat) : 1 ≤ ntile5 n i := by
  rw [ntile5]; split_ifs <;> omega

theorem ntile5_le_five (n i : Nat) : ntile5 n i ≤ 5 := by
  rw [ntile5]; split_ifs <;> omega

theorem ntile5_mono (n : Nat) {i j : Nat} (hij : i ≤ j) : ntile5 n i ≤ ntile5 n j := by
  rw [ntile5, ntile5]
  simp only [ntile5Start]
  split_ifs <;> omega

theorem ntile5_zero (n : Nat) (hn : 0 < n) : ntile5 n 0 = 1 := by
  rw [ntile5]
  simp only [ntile5Start]
  split_ifs <;> omega

theorem ntile5_eq_iff (n i b : Nat) (hi : i < n) (hb1 : 1 ≤ b) (hb5 : b ≤ 5) :
    ntile5 n i = b ↔ ntile5Start n (b - 1) ≤ i ∧ i < ntile5Start n b := by
  interval_cases b <;>
    (rw [ntile5]; simp only [ntile5Start]; split_ifs <;> omega)

theorem ntile5Start_size (n b : Nat) (hb1 : 1 ≤ b) (hb5 : b ≤ 5) :
    ntile5Start n b - ntile5Start n (b - 1) = n / 5 ∨
    ntile5Start n b - ntile5Start n (b - 1) = (n + 4) / 5 := by
  interval_cases b <;> (simp only [ntile5Start]; omega)

theorem stableRank_lt {α : Type} [LinearOrder α] {n : Nat} (v : Fin n → α)
    (j : Fin n) : stableRank v j < n := by
  rw [stableRank]
  have hsub : (Finset.univ.filter
      (fun i => v i < v j ∨ (v i = v j ∧ i < j))) ⊆ Finset.univ.erase j := by
    intro i hi
    rcases (Finset.mem_filter.mp hi).2 with h | ⟨-, h⟩
    · exact Finset.mem_erase.mpr ⟨fun he => absurd (he ▸ h) (lt_irrefl _), Finset.mem_univ i⟩
    · exact Finset.mem_erase.mpr ⟨fun he => absurd (he ▸ h) (lt_irrefl _), Finset.mem_univ i⟩
  calc (Finset.univ.filter (fun i => v i < v j ∨ (v i = v j ∧ i < j))).card
      ≤ (Finset.univ.erase j).card := Finset.card_le_card hsub
    _ = n - 1 := by rw [Finset.card_erase_of_mem (Finset.mem_univ j)]; simp
    _ < n := by have := j.isLt; omega

theorem stableRank_strict_mono {α : Type} [LinearOrder α] {n : Nat} (v : Fin n → α)
    {a b : Fin n} (hab : v a < v b ∨ (v a = v b ∧ a < b)) :
    stableRank v a < stableRank v b := by
  rw [stableRank, stableRank]
  apply Finset.card_lt_card
  constructor
  · intro k hk
    rcases (Finset.mem_filter.mp hk).2 with h | ⟨he, hlt⟩
    · refine Finset.mem_filter.mpr ⟨Finset.mem_univ k, ?_⟩
      rcases hab with h2 | ⟨he2, -⟩
      · exact Or.inl (lt_trans h h2)
      · exact Or.inl (he2 ▸ h)
    · refine Finset.mem_filter.mpr ⟨Finset.mem_univ k, ?_⟩
      rcases hab with h2 | ⟨he2, hlt2⟩
      · exact Or.inl (he ▸ h2)
      · exact Or.inr ⟨he.trans he2, lt_trans hlt hlt2⟩
  · intro hback
    have ha : a ∈ Finset.univ.filter (fun i => v i < v b ∨ (v i = v b ∧ i < b)) :=
      Finset.mem_filter.mpr ⟨Finset.mem_univ a, hab⟩
    have := (Finset.mem_filter.mp (hback ha)).2
    rcases this with h | ⟨-, h⟩
    · exact absurd h (lt_irrefl _)
    · exact absurd h (lt_irrefl _)

theorem stableRank_injective {α : Type} [LinearOrder α] {n : Nat} (v : Fin n → α) :
    Function.Injective (fun j => stableRank v j) := by
  intro a b hab
  by_contra hne
  rcases lt_trichotomy (v a) (v b) with h | h | h
  · exact absurd hab (Nat.ne_of_lt (stableRank_strict_mono v (Or.inl h)))
  · rcases lt_trichotomy a b with h2 | h2 | h2
    · exact absurd hab (Nat.ne_of_lt (stableRank_strict_mono v (Or.inr ⟨h, h2⟩)))
    · exact hne h2
    · exact absurd hab.symm (Nat.ne_of_lt (stableRank_strict_mono v (Or.inr ⟨h.symm, h2⟩)))
  · exact absurd hab.symm (Nat.ne_of_lt (stableRank_strict_mono v (Or.inl h)))

/-- The rank map as a function `Fin n → Fin n`. -/
def rankFin {α : Type} [LinearOrder α] {n : Nat} (v : Fin n → α) (j : Fin n) : Fin n :=
  ⟨stableRank v j, stableRank_lt v j⟩

theorem rankFin_injective {α : Type} [LinearOrder α] {n : Nat} (v : Fin n → α) :
    Function.Injective (rankFin v) := by
  intro a b hab
  exact stableRank_injective v (congrArg Fin.val hab)

theorem rankFin_surjective {α : Type} [LinearOrder α] {n : Nat} (v : Fin n → α) :
    Function.Surjective (rankFin v) :=
  Finite.surjective_of_injective (rankFin_injective v)

theorem card_filter_stableRank {α : Type} [LinearOrder α] {n : Nat} (v : Fin n → α)
    (P : Nat → Prop) [DecidablePred P] :
    (Finset.univ.filter (fun j : Fin n => P (stableRank v j))).card =
      (Finset.univ.filter (fun i : Fin n => P i.val)).card := by
  apply Finset.card_bij (fun j _ => rankFin v j)
  · intro a ha
    refine Finset.mem_filter.mpr ⟨Finset.mem_univ _, ?_⟩
    exact (Finset.mem_filter.mp ha).2
  · intro a1 h1 a2 h2 he
    exact rankFin_injective v he
  · intro b hb
    obtain ⟨a, ha⟩ := rankFin_surjective v b
    refine ⟨a, Finset.mem_filter.mpr ⟨Finset.mem_univ _, ?_⟩, ha⟩
    have := (Finset.mem_filter.mp hb).2
    rw [← ha] at this
    exact this

theorem ntile5_val_card (n b : Nat) (hb1 : 1 ≤ b) (hb5 : b ≤ 5) :
    (Finset.univ.filter (fun i : Fin n => ntile5 n i.val = b)).card =
      ntile5Start n b - ntile5Start n (b - 1) := by
  have hcard : (Finset.univ.filter (fun i : Fin n => ntile5 n i.val = b)).card =
      (Finset.Ico (ntile5Start n (b - 1)) (ntile5Start n b)).card := by
    apply Finset.card_bij (fun (i : Fin n) _ => i.val)
    · intro a ha
      have h2 := (Finset.mem_filter.mp ha).2
      have h3 := (ntile5_eq_iff n a.val b a.isLt hb1 hb5).mp h2
      exact Finset.mem_Ico.mpr h3
    · intro a1 h1 a2 h2 he
      exact Fin.ext he
    · intro x hx
      have h3 := Finset.mem_Ico.mp hx
      have hxn : x < n := lt_of_lt_of_le h3.2 (ntile5Start_le n b hb5)
      refine ⟨⟨x, hxn⟩, Finset.mem_filter.mpr ⟨Finset.mem_univ _, ?_⟩, rfl⟩
      exact (ntile5_eq_iff n x b hxn hb1 hb5).mpr h3
  rw [hcard, Nat.card_Ico]

theorem stableRank_bucket_card {α : Type} [LinearOrder α] {n : Nat} (v : Fin n → α)
    (b : Nat) (hb1 : 1 ≤ b) (hb5 : b ≤ 5) :
    (Finset.univ.filter (fun j : Fin n => ntile5 n (stableRank v j) = b)).card = n / 5 ∨
    (Finset.univ.filter (fun j : Fin n => ntile5 n (stableRank v j) = b)).card =
      (n + 4) / 5 := by
  rw [card_filter_stableRank v (fun m => ntile5 n m = b), ntile5_val_card n b hb1 hb5]
  exact ntile5Start_size n b hb1 hb5

/-! ## C6 -/

/-- C6 (corrected, amended): the recency score is inverted — strictly more
recent buyers never score lower — and score 5 goes to the FIRST buyer (in
`rfm_base` row order) among those with minimal `recency_days`.  When several
buyers tie at the minimal recency, `NTILE` may push the later ones over a
bucket boundary, so not every minimal-recency buyer gets score 5 (see the
counterexample). -/
theorem rfm_recency_inverted (events : List Event) :
    (∀ a b : Fin (buyersList events).length,
      recVec events a < recVec events b → rScoreAt events b ≤ rScoreAt events a) ∧
    (∀ j : Fin (buyersList events).length,
      (∀ i, recVec events j ≤ recVec events i) →
      (∀ i, recVec events i = recVec events j → j ≤ i) →
      rScoreAt events j = 5) := by
  constructor
  · intro a b hab
    have hrank : stableRank (recVec events) a < stableRank (recVec events) b :=
      stableRank_strict_mono (recVec events) (Or.inl hab)
    have hbucket : rBucketAt events a ≤ rBucketAt events b :=
      ntile5_mono (buyersList events).length (Nat.le_of_lt hrank)
    rw [rScoreAt, rScoreAt]
    omega
  · intro j hmin hfirst
    have hrank : stableRank (recVec events) j = 0 := by
      rw [stableRank]
      rw [Finset.card_eq_zero]
      apply Finset.eq_empty_iff_forall_not_mem.mpr
      intro i hi
      rcases (Finset.mem_filter.mp hi).2 with h | ⟨he, hlt⟩
      · exact absurd h (not_lt.mpr (hmin i))
      · exact absurd hlt (not_lt.mpr (hfirst i he))
    have hn : 0 < (buyersList events).length := Nat.lt_of_le_of_lt (Nat.zero_le _) j.isLt
    rw [rScoreAt, rBucketAt, hrank, ntile5_zero _ hn]

/-- Five buyers with recencies 3, 3, 5, 7, 9: buyers at positions 0 and 1 tie
at the minimal recency 3 (the reference instant is the time-100 view). -/
def exRfm : List Event :=
  [purchaseEv 97 1 1 none 10, purchaseEv 97 2 1 none 10,
   purchaseEv 95 3 1 none 10, purchaseEv 93 4 1 none 10,
   purchaseEv 91 5 1 none 10, viewEv 100 9 1 none]

/-- Witness for C6: on `exRfm`, position 0 is strictly more recent than
position 2 and scores at least as high, and the first minimal-recency buyer
(position 0) scores exactly 5. -/
theorem rfm_recency_inverted_witness :
    (recVec exRfm ⟨0, by decide⟩ < recVec exRfm ⟨2, by decide⟩ ∧
      rScoreAt exRfm ⟨2, by decide⟩ ≤ rScoreAt exRfm ⟨0, by decide⟩) ∧
    rScoreAt exRfm ⟨0, by decide⟩ = 5 :=
  ⟨⟨by decide, (rfm_recency_inverted exRfm).1 _ _ (by decide)⟩,
   (rfm_recency_inverted exRfm).2 ⟨0, by decide⟩ (by decide) (by decide)⟩

/-- Counterexample to C6 as stated: on `exRfm` the buyer at position 1 also
has the minimal recency 3 but lands in NTILE bucket 2, so its r_score is 4,
not 5 — not all minimal-recency buyers receive score 5. -/
theorem rfm_min_recency_score_cex :
    (∀ i : Fin (buyersList exRfm).length,
      recVec exRfm ⟨1, by decide⟩ ≤ recVec exRfm i) ∧
    rScoreAt exRfm ⟨1, by decide⟩ ≠ 5 := by decide

/-! ## C8 -/

/-- C8 (confirmed): for each of the three metrics the NTILE(5) buckets are
balanced — each bucket holds ⌊N/5⌋ or ⌈N/5⌉ = (N+4)/5 of the N buyers — and
every r/f/m score is an integer in [1,5]. -/
theorem rfm_quantile_balance_and_range (events : List Event) :
    (∀ b, 1 ≤ b → b ≤ 5 →
      ((Finset.univ.filter (fun i : Fin (buyersList events).length =>
          rBucketAt events i = b)).card = (buyersList events).length / 5 ∨
        (Finset.univ.filter (fun i : Fin (buyersList events).length =>
          rBucketAt events i = b)).card = ((buyersList events).length + 4) / 5) ∧
      ((Finset.univ.filter (fun i : Fin (buyersList events).length =>
          fScoreAt events i = b)).card = (buyersList events).length / 5 ∨
        (Finset.univ.filter (fun i : Fin (buyersList events).length =>
          fScoreAt events i = b)).card = ((buyersList events).length + 4) / 5) ∧
      ((Finset.univ.filter (fun i : Fin (buyersList events).length =>
          mScoreAt events i = b)).card = (buyersList events).length / 5 ∨
        (Finset.univ.filter (fun i : Fin (buyersList events).length =>
          mScoreAt events i = b)).card = ((buyersList events).length + 4) / 5)) ∧
    (∀ i : Fin (buyersList events).length,
      (1 ≤ rScoreAt events i ∧ rScoreAt events i ≤ 5) ∧
      (1 ≤ fScoreAt events i ∧ fScoreAt events i ≤ 5) ∧
      (1 ≤ mScoreAt events i ∧ mScoreAt events i ≤ 5)) := by
  constructor
  · intro b hb1 hb5
    refine ⟨?_, ?_, ?_⟩
    · exact stableRank_bucket_card (recVec events) b hb1 hb5
    · exact stableRank_bucket_card (freqVec events) b hb1 hb5
    · exact stableRank_bucket_card (monVec events) b hb1 hb5
  · intro i
    have hr1 : 1 ≤ rBucketAt events i := ntile5_pos _ _
    have hr5 : rBucketAt events i ≤ 5 := ntile5_le_five _ _
    have hf1 : 1 ≤ fScoreAt events i := ntile5_pos _ _
    have hf5 : fScoreAt events i ≤ 5 := ntile5_le_five _ _
    have hm1 : 1 ≤ mScoreAt events i := ntile5_pos _ _
    have hm5 : mScoreAt events i ≤ 5 := ntile5_le_five _ _
    rw [rScoreAt]
    exact ⟨by omega, ⟨hf1, hf5⟩, hm1, hm5⟩

/-- Witness for C8: bucket 2 of the recency metric on `exRfm` (N = 5) holds
⌊5/5⌋ or ⌈5/5⌉ buyers. -/
theorem rfm_quantile_balance_and_range_witness :
    (Finset.univ.filter (fun i : Fin (buyersList exRfm).length =>
        rBucketAt exRfm i = 2)).card = (buyersList exRfm).length / 5 ∨
    (Finset.univ.filter (fun i : Fin (buyersList exRfm).length =>
        rBucketAt exRfm i = 2)).card = ((buyersList exRfm).length + 4) / 5 :=
  ((rfm_quantile_balance_and_range exRfm).1 2 (by decide) (by decide)).1

/-! ## C7 -/

theorem mem_buyersList_iff (events : List Event) (u : Nat) :
    u ∈ buyersList events ↔
      ∃ e ∈ events, e.event_type = EventType.purchase ∧ e.user_id = u := by
  rw [buyersList, List.mem_dedup, List.mem_map]
  constructor
  · rintro ⟨e, he, rfl⟩
    have h2 := List.mem_filter.mp he
    exact ⟨e, h2.1, by simpa [isPurchase] using h2.2, rfl⟩
  · rintro ⟨e, he, ht, hu⟩
    exact ⟨e, List.mem_filter.mpr ⟨he, by simp [isPurchase, ht]⟩, hu⟩

theorem rfm_row_user_mem (events : List Event) (u : Nat) :
    (∃ r ∈ analysisRfmSegments events, r.user_id = u) ↔ u ∈ buyersList events := by
  constructor
  · rintro ⟨r, hr, hu⟩
    rw [analysisRfmSegments] at hr
    obtain ⟨i, hi⟩ := Set.mem_range.mp ((List.mem_ofFn _ r).mp hr)
    have : r.user_id = (buyersList events).get i := by rw [← hi]; rfl
    rw [← hu, this]
    exact List.get_mem _ _ i.isLt
  · intro hu
    obtain ⟨i, hilt, hie⟩ := List.mem_iff_getElem.mp hu
    refine ⟨rfmRowAt events ⟨i, hilt⟩, ?_, ?_⟩
    · rw [analysisRfmSegments]
      exact (List.mem_ofFn _ _).mpr (Set.mem_range.mpr ⟨⟨i, hilt⟩, rfl⟩)
    · show (buyersList events).get ⟨i, hilt⟩ = u
      simpa using hie

/-- C7 (confirmed): exactly the users with at least one purchase event get a
row in `analysis_rfm_segments`, and every user without a purchase event
receives the COALESCE defaults in the feature store: recency −1, frequency 0,
monetary 0, segment "Browser". -/
theorem rfm_exactly_buyers_and_browser_defaults (events : List Event) :
    (∀ u, (∃ r ∈ analysisRfmSegments events, r.user_id = u) ↔
      ∃ e ∈ events, e.event_type = EventType.purchase ∧ e.user_id = u) ∧
    (∀ u, (¬ ∃ e ∈ events, e.event_type = EventType.purchase ∧ e.user_id = u) →
      featureRow events u =
        { user_id := u, recency_days := -1, frequency_raw := 0,
          monetary_raw := 0, rfm_segment := "Browser" }) := by
  constructor
  · intro u
    rw [rfm_row_user_mem, mem_buyersList_iff]
  · intro u hu
    rw [featureRow]
    have hf : (analysisRfmSegments events).find? (fun r => r.user_id == u) = none := by
      apply List.find?_eq_none.mpr
      intro r hr hru
      exact hu (((rfm_row_user_mem events u).mp
        ⟨r, hr, beq_iff_eq.mp hru⟩) |> (mem_buyersList_iff events u).mp)
    rw [hf]

/-- Witness for C7: on `exRfm`, buyer 1 has an RFM row, and the view-only
user 9 gets the Browser defaults. -/
theorem rfm_exactly_buyers_and_browser_defaults_witness :
    (∃ r ∈ analysisRfmSegments exRfm, r.user_id = 1) ∧
    featureRow exRfm 9 =
      { user_id := 9, recency_days := -1, frequency_raw := 0,
        monetary_raw := 0, rfm_segment := "Browser" } :=
  ⟨((rfm_exactly_buyers_and_browser_defaults exRfm).1 1).mpr (by decide),
   (rfm_exactly_buyers_and_browser_defaults exRfm).2 9 (by decide)⟩

/-! ## C9 -/

/-- C9 (confirmed): when no session row has a view, the view-session count is
0 and the view→cart rate is the defined NULL sentinel (totality of the
embedding reflects DuckDB division by zero yielding NULL/NaN, never an
exception); likewise for cart→purchase with no cart sessions. -/
theorem funnel_rate_zero_denominator_sentinel (events : List Event) :
    ((∀ r ∈ factSessions events, r.has_view = false) →
      viewToCartRate (factSessions events) = none) ∧
    ((∀ r ∈ factSessions events, r.has_cart = false) →
      cartToPurchaseRate (factSessions events) = none) := by
  constructor
  · intro h
    have h0 : sessionsWithView (factSessions events) = 0 := by
      rw [sessionsWithView]
      exact List.countP_eq_zero.mpr (fun r hr => by simp [h r hr])
    rw [viewToCartRate, h0]
    simp [sqlDivOpt]
  · intro h
    have h0 : sessionsWithCart (factSessions events) = 0 := by
      rw [sessionsWithCart]
      exact List.countP_eq_zero.mpr (fun r hr => by simp [h r hr])
    rw [cartToPurchaseRate, h0]
    simp [sqlDivOpt]

/-- Witness for C9: the all-purchase table `exAffinity` has neither view nor
cart sessions, and both funnel rates come out as the NULL sentinel. -/
theorem funnel_rate_zero_denominator_sentinel_witness :
    viewToCartRate (factSessions exAffinity) = none ∧
    cartToPurchaseRate (factSessions exAffinity) = none :=
  ⟨(funnel_rate_zero_denominator_sentinel exAffinity).1 (by decide),
   (funnel_rate_zero_denominator_sentinel exAffinity).2 (by decide)⟩

/-! ## C10 -/

theorem listMax_mem_of_ne_nil (l : List Nat) (hl : l ≠ []) : listMax l ∈ l := by
  rcases foldl_max_mem l 0 with h0 | hm
  · match l with
    | [] => exact absurd rfl hl
    | x :: xs =>
      have hx := le_listMax (x :: xs) x (List.mem_cons_self _ _)
      have hx0 : x = 0 := by
        rw [listMax] at hx
        omega
      rw [listMax, h0, ← hx0]
      exact List.mem_cons_self _ _
  · exact hm

theorem mem_sessionIds_iff (events : List Event) (sid : Nat) :
    sid ∈ sessionIds events ↔ ∃ e ∈ events, e.user_session = some sid := by
  rw [sessionIds, List.mem_dedup, List.mem_filterMap]

/-- C10 (confirmed): every `fact_sessions` row carries
`user_id = MAX(user_id)` over the events of its session, and every session
identifier present among the events yields a row — sessions whose events
carry different user_ids are not rejected but silently attributed to the
numerically largest user_id. -/
theorem session_user_id_is_max (events : List Event) :
    (∀ row ∈ factSessions events,
      (∀ e ∈ events, e.user_session = some row.user_session →
        e.user_id ≤ row.user_id) ∧
      ∃ e ∈ events, e.user_session = some row.user_session ∧
        e.user_id = row.user_id) ∧
    (∀ sid, (∃ e ∈ events, e.user_session = some sid) →
      ∃ row ∈ factSessions events, row.user_session = sid) := by
  constructor
  · intro row hrow
    rcases List.mem_map.mp hrow with ⟨sid, hsid, rfl⟩
    constructor
    · intro e he hes
      apply le_listMax
      exact List.mem_map.mpr ⟨e, List.mem_filter.mpr ⟨he, by simp [hes]⟩, rfl⟩
    · have hpres := (mem_sessionIds_iff events sid).mp hsid
      obtain ⟨e0, he0, hes0⟩ := hpres
      have hne : (sessionEvents events sid).map (fun e => e.user_id) ≠ [] := by
        intro hnil
        have hmem : e0.user_id ∈ (sessionEvents events sid).map (fun e => e.user_id) :=
          List.mem_map.mpr ⟨e0, List.mem_filter.mpr ⟨he0, by simp [hes0]⟩, rfl⟩
        rw [hnil] at hmem
        cases hmem
      obtain ⟨e, hemem, heid⟩ :=
        List.mem_map.mp (listMax_mem_of_ne_nil _ hne)
      have hef := List.mem_filter.mp hemem
      exact ⟨e, hef.1, beq_iff_eq.mp hef.2, heid⟩
  · intro sid hpres
    exact ⟨_, List.mem_map.mpr
      ⟨sid, (mem_sessionIds_iff events sid).mpr hpres, rfl⟩, rfl⟩

/-- One session (id 7) whose two events carry different user_ids 3 and 9. -/
def exSessionMix : List Event := [viewEv 0 3 1 (some 7), viewEv 1 9 1 (some 7)]

/-- Witness for C10: the mixed-user session 7 of `exSessionMix` yields a row
attributed to the maximal user_id. -/
theorem session_user_id_is_max_witness :
    ∃ row ∈ factSessions exSessionMix, row.user_session = 7 :=
  (session_user_id_is_max exSessionMix).2 7 (by decide)

end CIP
